import Mathlib

/-!
Verification of the exostra/twm retained-mode window manager
(src/include/exostra.h, src/include/twm.h) against its specification.

Shallow embedding: `Coord` (int16_t) values are modelled as `Int`; the rect
operations use only comparisons and `min`/`max`, which never overflow the
int16 range, so unbounded `Int` is a faithful model. `WindowID` (uint8_t)
is modelled as `Fin 256`; the stored z-order byte (uint8_t) is a `Nat`
reduced mod 256 exactly where the C++ assigns to a `uint8_t`.
-/

namespace Exostra

/-- Embeds `exostra::Rect` (exostra.h, lines 249-492): four signed
coordinates, default-initialized to zero. -/
structure Rect where
  left : Int := 0
  top : Int := 0
  right : Int := 0
  bottom : Int := 0
deriving DecidableEq, Repr

/-- Embeds `Rect::width()`: `right - left` (the well-formedness assertion
`right >= left` is a hypothesis of the theorems that need it). -/
def Rect.width (r : Rect) : Int := r.right - r.left

/-- Embeds `Rect::height()`: `bottom - top`. -/
def Rect.height (r : Rect) : Int := r.bottom - r.top

/-- Embeds `Rect::empty()`: `width() == 0 || height() == 0`. -/
def Rect.empty (r : Rect) : Bool := r.width == 0 || r.height == 0

/-- Embeds `Rect::pointWithin(x, y)`:
`x >= left && x <= right && y >= top && y <= bottom`. -/
def Rect.pointWithin (r : Rect) (x y : Int) : Bool :=
  decide (x ≥ r.left) && decide (x ≤ r.right) &&
  decide (y ≥ r.top) && decide (y ≤ r.bottom)

/-- Embeds `Rect::overlapsRect(other)`: the three early-return branches of
the source become a disjunction of the three guard conjunctions. -/
def Rect.overlapsRect (r other : Rect) : Bool :=
  (((decide (r.top ≥ other.top) && decide (r.top ≤ other.bottom)) ||
    (decide (r.bottom ≤ other.bottom) && decide (r.bottom ≥ other.top))) &&
   ((decide (r.left ≤ other.left) && decide (r.right ≥ other.left)) ||
    (decide (r.right ≥ other.right) && decide (r.left ≤ other.right)))) ||
  (((decide (r.left ≥ other.left) && decide (r.left ≤ other.right)) ||
    (decide (r.right ≤ other.right) && decide (r.right ≥ other.left))) &&
   ((decide (r.top ≤ other.top) && decide (r.bottom ≥ other.top)) ||
    (decide (r.bottom ≥ other.bottom) && decide (r.top ≤ other.bottom)))) ||
  ((decide (r.left ≤ other.left) && decide (r.top ≤ other.top) &&
    decide (r.right ≥ other.right) && decide (r.bottom ≥ other.bottom)) ||
   (decide (r.left ≥ other.left) && decide (r.top ≥ other.top) &&
    decide (r.right ≤ other.right) && decide (r.bottom ≤ other.bottom)))

/-- Embeds `Rect::intersectsRect(other)`:
`overlapsRect(other) || other.overlapsRect(*this)`. -/
def Rect.intersectsRect (r other : Rect) : Bool :=
  r.overlapsRect other || other.overlapsRect r

/-- Embeds `Rect::mergeRect(rect)` (value-returning form of the in-place
mutation): componentwise min/max. -/
def Rect.mergeRect (r rect : Rect) : Rect :=
  ⟨min r.left rect.left, min r.top rect.top,
   max r.right rect.right, max r.bottom rect.bottom⟩

/-- Embeds `Rect::outsideRect(other)`: none of the four corners lies
within `other`. -/
def Rect.outsideRect (r other : Rect) : Bool :=
  !other.pointWithin r.left r.top &&
  !other.pointWithin r.right r.top &&
  !other.pointWithin r.left r.bottom &&
  !other.pointWithin r.right r.bottom

/-- Embeds `Rect::withinRect(other)`: all four corners lie within
`other`. -/
def Rect.withinRect (r other : Rect) : Bool :=
  other.pointWithin r.left r.top &&
  other.pointWithin r.right r.top &&
  other.pointWithin r.left r.bottom &&
  other.pointWithin r.right r.bottom

/-- Embeds `Rect::subtractRect(other)` (exostra.h, lines 365-470). The
`std::queue` of emitted rectangles is modelled as a `List` in emission
order; the four successive in-place updates of `edgeRect` in the final
branch are written as four successive record updates. -/
def Rect.subtractRect (r other : Rect) : List Rect :=
  if r.intersectsRect other then
    let mergedRect := r.mergeRect other
    let alignedLeft := decide (mergedRect.left ≥ other.left)
    let alignedTop := decide (mergedRect.top ≥ other.top)
    let alignedRight := decide (mergedRect.right ≤ other.right)
    let alignedBottom := decide (mergedRect.bottom ≤ other.bottom)
    if !alignedLeft || !alignedTop || !alignedRight || !alignedBottom then
      let topNoAlignTop := max mergedRect.top r.top
      let topNoAlignBottom := min mergedRect.bottom other.bottom
      let bottomNoAlignTop := min mergedRect.bottom other.top
      let bottomNoAlignBottom := min mergedRect.bottom r.bottom
      let leftNoAlignRight := min mergedRect.right other.right
      let leftNoAlignLeft := max mergedRect.left r.left
      let rightNoAlignRight := min mergedRect.right r.right
      let rightNoAlignLeft := max mergedRect.left other.left
      (if alignedLeft || alignedRight then
        (if alignedLeft && !alignedRight then
          [Rect.mk leftNoAlignRight (max mergedRect.top r.top)
            rightNoAlignRight (min mergedRect.bottom r.bottom)]
         else []) ++
        (if alignedRight && !alignedLeft then
          [Rect.mk leftNoAlignLeft (max mergedRect.top r.top)
            rightNoAlignLeft (min mergedRect.bottom r.bottom)]
         else []) ++
        (if !alignedTop && !alignedBottom then
          [Rect.mk (max mergedRect.left r.left) topNoAlignTop
            (min mergedRect.right r.right) bottomNoAlignTop,
           Rect.mk (max mergedRect.left r.left) topNoAlignBottom
            (min mergedRect.right r.right) bottomNoAlignBottom]
         else [])
       else []) ++
      (if alignedTop || alignedBottom then
        (if alignedTop && !alignedBottom then
          [Rect.mk (max mergedRect.left r.left) topNoAlignBottom
            (min mergedRect.right r.right) bottomNoAlignBottom]
         else []) ++
        (if alignedBottom && !alignedTop then
          [Rect.mk (max mergedRect.left r.left) topNoAlignTop
            (min mergedRect.right r.right) bottomNoAlignTop]
         else []) ++
        (if !alignedLeft && !alignedRight then
          [Rect.mk leftNoAlignRight (max mergedRect.top r.top)
            rightNoAlignRight (min mergedRect.bottom r.bottom),
           Rect.mk leftNoAlignLeft (max mergedRect.top r.top)
            rightNoAlignLeft (min mergedRect.bottom r.bottom)]
         else [])
       else []) ++
      (if !alignedLeft && !alignedTop && !alignedRight && !alignedBottom then
        let edgeRect1 := Rect.mk (min other.left r.left) (min other.top r.top)
          (max other.left r.left) (max other.bottom r.bottom)
        let edgeRect2 := { edgeRect1 with
          right := max other.right r.right, bottom := max other.top r.top }
        let edgeRect3 := { edgeRect2 with
          left := min other.right r.right, top := min other.top r.top,
          bottom := max other.bottom r.bottom }
        let edgeRect4 := { edgeRect3 with
          left := min other.left r.left, top := min other.bottom r.bottom }
        [edgeRect1, edgeRect2, edgeRect3, edgeRect4]
       else [])
    else []
  else []

/-- A rectangle is well formed when `right >= left` and `bottom >= top`
(the documented `Rect` invariant, spec section 3). -/
def Rect.wf (r : Rect) : Prop := r.left ≤ r.right ∧ r.top ≤ r.bottom

instance (r : Rect) : Decidable r.wf := by unfold Rect.wf; infer_instance

/-- Spec-level notion used to compare point sets mod boundary pixels: a
point strictly interior to a rectangle. -/
def Rect.interiorMem (r : Rect) (x y : Int) : Prop :=
  r.left < x ∧ x < r.right ∧ r.top < y ∧ y < r.bottom

instance (r : Rect) (x y : Int) : Decidable (r.interiorMem x y) := by
  unfold Rect.interiorMem; infer_instance

/-- Spec-level: some rectangle of the list contains `(x, y)` in its
interior. -/
def coveredBy (rs : List Rect) (x y : Int) : Prop :=
  ∃ r ∈ rs, r.interiorMem x y

theorem coveredBy_nil (x y : Int) : coveredBy [] x y ↔ False := by
  simp [coveredBy]

theorem coveredBy_cons (r : Rect) (rs : List Rect) (x y : Int) :
    coveredBy (r :: rs) x y ↔ r.interiorMem x y ∨ coveredBy rs x y := by
  simp [coveredBy]

theorem coveredBy_append (l₁ l₂ : List Rect) (x y : Int) :
    coveredBy (l₁ ++ l₂) x y ↔ coveredBy l₁ x y ∨ coveredBy l₂ x y := by
  simp [coveredBy, or_and_right, exists_or]

/-- The symmetric pair of overlap tests is equivalent to the standard
closed-rectangle intersection test, for well-formed rectangles. -/
theorem intersectsRect_iff (a b : Rect) (ha : a.wf) (hb : b.wf) :
    a.intersectsRect b = true ↔
      (b.left ≤ a.right ∧ a.left ≤ b.right ∧ b.top ≤ a.bottom ∧ a.top ≤ b.bottom) := by
  obtain ⟨ha1, ha2⟩ := ha
  obtain ⟨hb1, hb2⟩ := hb
  simp only [Rect.intersectsRect, Rect.overlapsRect, Bool.or_eq_true,
    Bool.and_eq_true, decide_eq_true_eq]
  omega

set_option maxHeartbeats 2000000 in
/-- Helper: pointwise characterization of `subtractRect`. For well-formed
rectangles, a point lies in the interior of some emitted rectangle exactly
when the two rectangles pass the `intersectsRect` test, the point is
interior to the minuend, and the point is not in the (closed) subtrahend. -/
theorem subtractRect_coverage (a b : Rect) (ha : a.wf) (hb : b.wf) (x y : Int) :
    coveredBy (a.subtractRect b) x y ↔
      (a.intersectsRect b = true ∧ a.interiorMem x y ∧ ¬ b.pointWithin x y = true) := by
  obtain ⟨ha1, ha2⟩ := ha
  obtain ⟨hb1, hb2⟩ := hb
  have eL : (decide ((a.mergeRect b).left ≥ b.left)) = decide (b.left ≤ a.left) :=
    decide_eq_decide.mpr (by simp only [Rect.mergeRect]; omega)
  have eT : (decide ((a.mergeRect b).top ≥ b.top)) = decide (b.top ≤ a.top) :=
    decide_eq_decide.mpr (by simp only [Rect.mergeRect]; omega)
  have eR : (decide ((a.mergeRect b).right ≤ b.right)) = decide (a.right ≤ b.right) :=
    decide_eq_decide.mpr (by simp only [Rect.mergeRect]; omega)
  have eB : (decide ((a.mergeRect b).bottom ≤ b.bottom)) = decide (a.bottom ≤ b.bottom) :=
    decide_eq_decide.mpr (by simp only [Rect.mergeRect]; omega)
  have eq1 : max (min a.top b.top) a.top = a.top := by omega
  have eq2 : min (max a.bottom b.bottom) b.bottom = b.bottom := by omega
  have eq3 : min (max a.bottom b.bottom) b.top = b.top := by omega
  have eq4 : min (max a.bottom b.bottom) a.bottom = a.bottom := by omega
  have eq5 : min (max a.right b.right) b.right = b.right := by omega
  have eq6 : max (min a.left b.left) a.left = a.left := by omega
  have eq7 : min (max a.right b.right) a.right = a.right := by omega
  have eq8 : max (min a.left b.left) b.left = b.left := by omega
  by_cases hI : a.intersectsRect b = true
  · have hIarith := (intersectsRect_iff a b ⟨ha1, ha2⟩ ⟨hb1, hb2⟩).mp hI
    simp only [Rect.subtractRect, hI, if_true, eL, eT, eR, eB]
    split_ifs with h1 h2 h3 h4 h5 h6 h7 h8 h9 h10 h11 h12 h13 h14 h15 h16 h17 h18 h19 h20 <;>
      simp only [Bool.or_eq_true, Bool.and_eq_true, Bool.not_eq_true',
        decide_eq_true_eq, decide_eq_false_iff_not, not_le,
        coveredBy_append, coveredBy_cons, coveredBy_nil, Rect.interiorMem,
        Rect.pointWithin, Rect.mergeRect, hI, true_and, or_false, false_or,
        iff_false, iff_true, false_iff, true_iff, not_false_iff,
        eq1, eq2, eq3, eq4, eq5, eq6, eq7, eq8] at * <;>
      omega
  · have hIf : a.intersectsRect b = false := by simpa using hI
    simp [Rect.subtractRect, hIf, coveredBy, hI]

/-- Helper: when the subtrahend contains the minuend edgewise, all four
alignment flags hold, so `subtractRect` emits nothing. -/
theorem subtractRect_nil_of_contained (a b : Rect)
    (h1 : b.left ≤ a.left) (h2 : b.top ≤ a.top)
    (h3 : a.right ≤ b.right) (h4 : a.bottom ≤ b.bottom) :
    a.subtractRect b = [] := by
  by_cases hI : a.intersectsRect b = true
  · have hc : (!decide ((a.mergeRect b).left ≥ b.left) ||
        !decide ((a.mergeRect b).top ≥ b.top) ||
        !decide ((a.mergeRect b).right ≤ b.right) ||
        !decide ((a.mergeRect b).bottom ≤ b.bottom)) = false := by
      simp only [Rect.mergeRect, Bool.or_eq_false_iff, Bool.not_eq_false',
        decide_eq_true_eq, ge_iff_le]
      omega
    simp [Rect.subtractRect, hI, hc]
  · have hIf : a.intersectsRect b = false := by simpa using hI
    simp [Rect.subtractRect, hIf]

/-- C1 (amended). For well-formed rectangles A, B: the rectangles returned
by `subtractRect` cover, by their interiors, exactly the interior points of
A that are outside B (mod boundary pixels) whenever the `intersectsRect`
test holds; when the test fails (in particular when A and B are disjoint)
the result is EMPTY rather than {A}; and when B fully contains A the result
is empty. The returned rectangles are not necessarily pairwise disjoint. -/
theorem claim1_subtractRect_characterization (a b : Rect) (ha : a.wf) (hb : b.wf) :
    (∀ x y : Int, coveredBy (a.subtractRect b) x y ↔
      (a.intersectsRect b = true ∧ a.interiorMem x y ∧ ¬ b.pointWithin x y = true)) ∧
    (a.intersectsRect b = false → a.subtractRect b = []) ∧
    (a.withinRect b = true → a.subtractRect b = []) := by
  refine ⟨fun x y => subtractRect_coverage a b ha hb x y, ?_, ?_⟩
  · intro h
    unfold Rect.subtractRect
    simp [h]
  · intro h
    simp only [Rect.withinRect, Rect.pointWithin, Bool.and_eq_true,
      decide_eq_true_eq] at h
    exact subtractRect_nil_of_contained a b (by omega) (by omega) (by omega) (by omega)

/-- C1 counterexample to the claim as stated: (i) for disjoint rectangles
the source returns the empty set, not {A}; (ii) the emitted rectangles can
overlap on a region with nonempty interior (here both contain (7,7)), so
pairwise disjointness fails. -/
theorem claim1_counterexample :
    (Rect.intersectsRect ⟨0,0,10,10⟩ ⟨20,20,30,30⟩ = false ∧
     Rect.subtractRect ⟨0,0,10,10⟩ ⟨20,20,30,30⟩ = [] ∧
     Rect.subtractRect ⟨0,0,10,10⟩ ⟨20,20,30,30⟩ ≠ [⟨0,0,10,10⟩]) ∧
    (Rect.subtractRect ⟨0,0,10,10⟩ ⟨-5,-5,5,5⟩ = [⟨5,0,10,10⟩, ⟨0,5,10,10⟩] ∧
     Rect.interiorMem ⟨5,0,10,10⟩ 7 7 ∧ Rect.interiorMem ⟨0,5,10,10⟩ 7 7) := by
  decide

/-- C1 witness: the amended characterization applied to concrete
well-formed rectangles — the coverage equivalence at the point (7, 7) of
an overlapping pair, the empty result of a disjoint pair, and the empty
result of a contained pair. -/
theorem claim1_witness :
    (coveredBy (Rect.subtractRect ⟨0,0,10,10⟩ ⟨-5,-5,5,5⟩) 7 7 ↔
      (Rect.intersectsRect ⟨0,0,10,10⟩ ⟨-5,-5,5,5⟩ = true ∧
       Rect.interiorMem ⟨0,0,10,10⟩ 7 7 ∧
       ¬ Rect.pointWithin ⟨-5,-5,5,5⟩ 7 7 = true)) ∧
    Rect.subtractRect ⟨0,0,10,10⟩ ⟨20,20,30,30⟩ = [] ∧
    Rect.subtractRect ⟨2,2,8,8⟩ ⟨0,0,10,10⟩ = [] :=
  ⟨(claim1_subtractRect_characterization ⟨0,0,10,10⟩ ⟨-5,-5,5,5⟩
      (by decide) (by decide)).1 7 7,
   (claim1_subtractRect_characterization ⟨0,0,10,10⟩ ⟨20,20,30,30⟩
      (by decide) (by decide)).2.1 (by decide),
   (claim1_subtractRect_characterization ⟨2,2,8,8⟩ ⟨0,0,10,10⟩
      (by decide) (by decide)).2.2 (by decide)⟩

/-- Embeds `bitsHigh(bitmask, bits)`: `(bitmask & bits) == bits`. -/
def bitsHigh (bitmask bits : Nat) : Bool := bitmask &&& bits == bits

/-- Style bit `STY_VISIBLE = 1 << 0`. -/
def STY_VISIBLE : Nat := 1

/-- Style bit `STY_FRAME = 1 << 2`. -/
def STY_FRAME : Nat := 4

/-- Style bit `STY_SHADOW = 1 << 3`. -/
def STY_SHADOW : Nat := 8

/-- Style bits `STY_TOPLEVEL = (1 << 4) | STY_FRAME | STY_SHADOW`. -/
def STY_TOPLEVEL : Nat := 16 ||| STY_FRAME ||| STY_SHADOW

/-- Style bit `STY_AUTOSIZE = 1 << 5`. -/
def STY_AUTOSIZE : Nat := 32

/-- State bit `STA_ALIVE = 1 << 0`. -/
def STA_ALIVE : Nat := 1

/-- State bit `STA_CHECKED = 1 << 1`. -/
def STA_CHECKED : Nat := 2

/-- State bit `STA_DIRTY = 1 << 2`. -/
def STA_DIRTY : Nat := 4

/-- Input type `INPUT_TAP = 1`. -/
def INPUT_TAP : Nat := 1

/-- Embeds the `Message` enum (MSG_CREATE..MSG_RESIZE). -/
inductive Msg where
  | create
  | destroy
  | draw
  | postdraw
  | input
  | event
  | resize
deriving DecidableEq, Repr

/-- Embeds `PackagedMessage`: a message with its two `MsgParam`
(uint32_t) parameters, modelled as `Nat`. -/
structure PackagedMessage where
  msg : Msg
  p1 : Nat := 0
  p2 : Nat := 0
deriving DecidableEq, Repr

/-- Embeds `makeMsgParam(hiWord, loWord)`: the `MsgParamWord` (uint16_t)
arguments are reduced mod 2^16 as the C++ types dictate, then packed. -/
def makeMsgParam (hiWord loWord : Nat) : Nat :=
  ((hiWord % 65536) <<< 16) ||| (loWord % 65536)

/-- Embeds `getMsgParamHiWord`: `(msgParam >> 16) & 0xffffU`. -/
def getMsgParamHiWord (msgParam : Nat) : Nat := (msgParam >>> 16) &&& 65535

/-- Embeds `getMsgParamLoWord`: `msgParam & 0xffffU`. -/
def getMsgParamLoWord (msgParam : Nat) : Nat := msgParam &&& 65535

/-- Embeds the per-window fields of `Window` that the verified claims
touch: the uint8_t id (`Fin 256`), the uint16_t style and state bitmasks,
the stored uint8_t z-order, whether the parent pointer is non-null, the
absolute rect and dirty rect, and the FIFO message queue. -/
structure Win where
  id : Fin 256
  style : Nat := 0
  state : Nat := 0
  zOrder : Nat := 0
  hasParent : Bool := false
  rect : Rect := {}
  dirtyRect : Rect := {}
  queue : List PackagedMessage := []
deriving DecidableEq, Repr

/-- Embeds `Window::setZOrder`: the value is stored into a uint8_t. -/
def Win.setZOrder (w : Win) (z : Nat) : Win := { w with zOrder := z % 256 }

/-- Embeds `Window::queueMessage` (exostra.h lines 2299-2310 and twm.h
lines 1653-1664, which are identical): pushes the packaged message
unconditionally, and returns
`msg == MSG_INPUT && getMsgParamLoWord(p1) == INPUT_TAP`. -/
def Win.queueMessage (w : Win) (msg : Msg) (p1 p2 : Nat) : Win × Bool :=
  ({ w with queue := w.queue ++ [⟨msg, p1, p2⟩] },
   msg == Msg.input && getMsgParamLoWord p1 == INPUT_TAP)

/-- Embeds `Window::isVisible`: the visible style bit is set and the rect
is nonempty. -/
def isVisible (w : Win) : Bool := bitsHigh w.style STY_VISIBLE && !w.rect.empty

/-- Embeds `Window::isAlive`: the alive state bit is set. -/
def isAlive (w : Win) : Bool := bitsHigh w.state STA_ALIVE

/-- Embeds `Window::isDrawable` with the parent chain evaluated into the
boolean `parentDrawable` (`true` for parentless windows, matching the
`!parent || parent->isDrawable()` clause). -/
def isDrawable (disp : Rect) (parentDrawable : Bool) (w : Win) : Bool :=
  isVisible w && isAlive w && parentDrawable && !(w.rect.outsideRect disp)

/-- C10. `Window::queueMessage` always appends exactly one entry to the
FIFO, and returns true exactly when the message is MSG_INPUT and the low
word of p1 is INPUT_TAP; for every other message it returns false even
though the message was enqueued. -/
theorem claim10_queueMessage (w : Win) (msg : Msg) (p1 p2 : Nat) :
    (w.queueMessage msg p1 p2).1.queue = w.queue ++ [⟨msg, p1, p2⟩] ∧
    ((w.queueMessage msg p1 p2).2 = true ↔
      (msg = Msg.input ∧ getMsgParamLoWord p1 = INPUT_TAP)) := by
  refine ⟨rfl, ?_⟩
  simp [Win.queueMessage]

/-- Embeds `WindowContainer::getChildByID`: linear scan for the first
child with the given id. -/
def getChildByID (children : List Win) (id : Fin 256) : Option Win :=
  children.find? (fun w => w.id == id)

/-- Embeds the loop body of `WindowContainer::recalculateZOrder`: each
child is assigned the running uint8_t counter value. The C++ counter is a
uint8_t, so the i-th child receives `i % 256` (`setZOrder` performs the
reduction in this model). -/
def recalcFrom (z : Nat) : List Win → List Win
  | [] => []
  | w :: ws => w.setZOrder z :: recalcFrom (z + 1) ws

/-- Embeds `WindowContainer::recalculateZOrder`: renumber from zero in
iteration order. -/
def recalculateZOrder (children : List Win) : List Win := recalcFrom 0 children

/-- Embeds the erase-first-match loops of `removeChildByID` and
`setForegroundWindow`: remove the first child whose id matches, or return
none when no child matches. -/
def removeFirstByID : List Win → Fin 256 → Option (List Win)
  | [], _ => none
  | c :: cs, i => if c.id = i then some cs else (removeFirstByID cs i).map (c :: ·)

/-- Embeds `WindowContainer::addChild` (exostra.h lines 1400-1416): reject
a duplicate id, otherwise assign the last child's z-order plus one (zero
when empty; the sum is stored into a uint8_t) and append. -/
def addChild (children : List Win) (child : Win) : List Win × Bool :=
  if (getChildByID children child.id).isSome then (children, false)
  else
    let zOrder := match children.getLast? with
      | some last => last.zOrder + 1
      | none => 0
    (children ++ [child.setZOrder zOrder], true)

/-- Embeds `WindowContainer::removeChildByID` (lines 1418-1431): erase the
first child with the given id and renumber, or report failure. -/
def removeChildByID (children : List Win) (id : Fin 256) : List Win × Bool :=
  match removeFirstByID children id with
  | some rest => (recalculateZOrder rest, true)
  | none => (children, false)

/-- Embeds `WindowContainer::setForegroundWindow` (lines 1367-1387): only
for a parentless window with the top-level style bits; erase the matching
child, push the argument at the back, and renumber. -/
def setForegroundWindow (children : List Win) (win : Win) : List Win × Bool :=
  if !win.hasParent && bitsHigh win.style STY_TOPLEVEL then
    match removeFirstByID children win.id with
    | some rest => (recalculateZOrder (rest ++ [win]), true)
    | none => (children, false)
  else (children, false)

/-- A mutation of the container, for stating the C3 invariant over
arbitrary operation sequences. -/
inductive ContainerOp where
  | add (child : Win)
  | removeByID (id : Fin 256)
  | foreground (win : Win)

/-- Applies one container operation (the container state after the call). -/
def applyContainerOp (children : List Win) : ContainerOp → List Win
  | .add c => (addChild children c).1
  | .removeByID i => (removeChildByID children i).1
  | .foreground w => (setForegroundWindow children w).1

/-- The C3 container invariant: z-order values are `0..N-1` in iteration
order, and child ids are pairwise distinct. -/
def ContInv (children : List Win) : Prop :=
  children.map Win.zOrder = List.range children.length ∧
  (children.map Win.id).Nodup

theorem recalcFrom_map_id (z : Nat) (l : List Win) :
    (recalcFrom z l).map Win.id = l.map Win.id := by
  induction l generalizing z with
  | nil => rfl
  | cons w ws ih => simp [recalcFrom, Win.setZOrder, ih]

theorem recalcFrom_map_zOrder (l : List Win) (z : Nat) (h : z + l.length ≤ 256) :
    (recalcFrom z l).map Win.zOrder = List.range' z l.length := by
  induction l generalizing z with
  | nil => rfl
  | cons w ws ih =>
    simp only [recalcFrom, Win.setZOrder, List.map_cons, List.length_cons,
      List.range'_succ]
    have hz : z % 256 = z := Nat.mod_eq_of_lt (by simp only [List.length_cons] at h; omega)
    rw [hz, ih (z + 1) (by simp only [List.length_cons] at h; omega)]

theorem nodup_length_le (l : List Win) (h : (l.map Win.id).Nodup) :
    l.length ≤ 256 := by
  have h2 := h.length_le_card
  rw [List.length_map, Fintype.card_fin] at h2
  exact h2

theorem recalculateZOrder_inv (l : List Win) (h : (l.map Win.id).Nodup) :
    ContInv (recalculateZOrder l) := by
  have hlen : l.length ≤ 256 := nodup_length_le l h
  have hz := recalcFrom_map_zOrder l 0 (by omega)
  have hid := recalcFrom_map_id 0 l
  refine ⟨?_, ?_⟩
  · have hlen2 : (recalcFrom 0 l).length = l.length := by
      have := congrArg List.length hid
      simpa using this
    rw [recalculateZOrder, hz, hlen2, List.range_eq_range']
  · rw [recalculateZOrder, hid]
    exact h

theorem getLast?_range (n : Nat) :
    (List.range n).getLast? = if n = 0 then none else some (n - 1) := by
  cases n with
  | zero => rfl
  | succ m => rw [List.range_succ, List.getLast?_concat]; simp

theorem removeFirstByID_eq (l : List Win) (i : Fin 256) (rest : List Win)
    (h : removeFirstByID l i = some rest) :
    ∃ pre e post, l = pre ++ e :: post ∧ e.id = i ∧ rest = pre ++ post := by
  induction l generalizing rest with
  | nil => simp [removeFirstByID] at h
  | cons c cs ih =>
    by_cases hc : c.id = i
    · simp [removeFirstByID, hc] at h
      exact ⟨[], c, cs, by simp, hc, h.symm⟩
    · simp only [removeFirstByID, hc, if_false, Option.map_eq_some'] at h
      obtain ⟨rest', hr, hrest⟩ := h
      obtain ⟨pre, e, post, hl, he, hr'⟩ := ih rest' hr
      exact ⟨c :: pre, e, post, by simp [hl], he, by simp [← hrest, hr']⟩

theorem ContInv_addChild (l : List Win) (c : Win) (h : ContInv l) :
    ContInv (addChild l c).1 := by
  obtain ⟨hz, hid⟩ := h
  by_cases hdup : (getChildByID l c.id).isSome
  · simpa [addChild, hdup] using ⟨hz, hid⟩
  · have hdupf : (getChildByID l c.id).isSome = false := by simpa using hdup
    have hfresh : c.id ∉ l.map Win.id := by
      intro hmem
      apply hdup
      simp only [List.mem_map] at hmem
      obtain ⟨w, hw, hwid⟩ := hmem
      have : (l.find? (fun w => w.id == c.id)).isSome := by
        rw [List.find?_isSome]
        exact ⟨w, hw, by simp [hwid]⟩
      simpa [getChildByID] using this
    have hlen : l.length ≤ 255 := by
      have h1 : (l.map Win.id ++ [c.id]).Nodup := by
        simp [List.nodup_append, hid, hfresh]
      have h2 := nodup_length_le (l ++ [c]) (by simpa using h1)
      simpa using h2
    have hlast : (List.range l.length).getLast? = l.getLast?.map Win.zOrder := by
      rw [← hz, List.getLast?_map]
    refine ⟨?_, ?_⟩
    · by_cases hn : l.length = 0
      · have hnil : l = [] := List.length_eq_zero.mp hn
        subst hnil
        simp [addChild, hdupf, Win.setZOrder, List.range_succ]
      · rw [getLast?_range, if_neg hn] at hlast
        cases hl : l.getLast? with
        | none => rw [hl] at hlast; simp at hlast
        | some last =>
          rw [hl] at hlast
          have hlastz : last.zOrder = l.length - 1 := by
            simpa using hlast.symm
          simp only [addChild, hdupf, Bool.false_eq_true, if_false, hl,
            List.map_append, hz, List.length_append, Win.setZOrder,
            List.map_cons, List.map_nil, List.length_cons, List.length_nil]
          rw [List.range_succ]
          congr 1
          simp only [List.cons.injEq, and_true]
          omega
    · simp only [addChild, hdupf, Bool.false_eq_true, if_false]
      simpa [List.nodup_append, Win.setZOrder, hid] using hfresh

theorem ContInv_removeChildByID (l : List Win) (i : Fin 256) (h : ContInv l) :
    ContInv (removeChildByID l i).1 := by
  obtain ⟨hz, hid⟩ := h
  cases hr : removeFirstByID l i with
  | none => simpa [removeChildByID, hr] using ⟨hz, hid⟩
  | some rest =>
    obtain ⟨pre, e, post, hl, he, hrest⟩ := removeFirstByID_eq l i rest hr
    have hsub : (rest.map Win.id).Sublist (l.map Win.id) := by
      rw [hl, hrest]
      exact ((List.sublist_cons_self e post).append_left pre).map Win.id
    simp only [removeChildByID, hr]
    exact recalculateZOrder_inv rest (hsub.nodup hid)

theorem ContInv_setForegroundWindow (l : List Win) (w : Win) (h : ContInv l) :
    ContInv (setForegroundWindow l w).1 := by
  obtain ⟨hz, hid⟩ := h
  by_cases hg : (!w.hasParent && bitsHigh w.style STY_TOPLEVEL) = true
  · cases hr : removeFirstByID l w.id with
    | none =>
      have heq : setForegroundWindow l w = (l, false) := by
        simp [setForegroundWindow, hg, hr]
      rw [heq]
      exact ⟨hz, hid⟩
    | some rest =>
      obtain ⟨pre, e, post, hl, he, hrest⟩ := removeFirstByID_eq l w.id rest hr
      have hperm : ((rest ++ [w]).map Win.id).Perm (l.map Win.id) := by
        rw [hl, hrest]
        simp only [List.map_append, List.map_cons, List.map_nil]
        rw [List.append_assoc]
        refine ((List.perm_append_singleton _ _).append_left _).trans ?_
        rw [← he]
      have heq : setForegroundWindow l w = (recalculateZOrder (rest ++ [w]), true) := by
        simp [setForegroundWindow, hg, hr]
      rw [heq]
      exact recalculateZOrder_inv (rest ++ [w]) (hperm.symm.nodup hid)
  · have hgf : (!w.hasParent && bitsHigh w.style STY_TOPLEVEL) = false := by
      simpa using hg
    have heq : setForegroundWindow l w = (l, false) := by
      simp [setForegroundWindow, hgf]
    rw [heq]
    exact ⟨hz, hid⟩

theorem ContInv_applyContainerOp (l : List Win) (op : ContainerOp)
    (h : ContInv l) : ContInv (applyContainerOp l op) := by
  cases op with
  | add c => exact ContInv_addChild l c h
  | removeByID i => exact ContInv_removeChildByID l i h
  | foreground w => exact ContInv_setForegroundWindow l w h

theorem ContInv_foldl (ops : List ContainerOp) (l : List Win) (h : ContInv l) :
    ContInv (ops.foldl applyContainerOp l) := by
  induction ops generalizing l with
  | nil => exact h
  | cons op ops ih => exact ih _ (ContInv_applyContainerOp l op h)

/-- Helper: adding a child whose id already occurs in the container is
rejected and leaves the container unchanged. -/
theorem addChild_duplicate (l : List Win) (c : Win)
    (h : ∃ w ∈ l, w.id = c.id) : addChild l c = (l, false) := by
  have : (getChildByID l c.id).isSome := by
    obtain ⟨w, hw, hwid⟩ := h
    rw [getChildByID, List.find?_isSome]
    exact ⟨w, hw, by simp [hwid]⟩
  simp [addChild, this]

/-- C3. Starting from an empty container, any sequence of addChild,
removeChildByID and setForegroundWindow calls leaves the z-order values
equal to `0..N-1` in iteration (paint) order; addChild rejects duplicate
ids, and setForegroundWindow refuses windows that have a parent or lack
the top-level style. -/
theorem claim3_zOrder_contiguous :
    (∀ ops : List ContainerOp,
      (ops.foldl applyContainerOp []).map Win.zOrder =
        List.range (ops.foldl applyContainerOp []).length) ∧
    (∀ (l : List Win) (c : Win), (∃ w ∈ l, w.id = c.id) →
      addChild l c = (l, false)) ∧
    (∀ (l : List Win) (w : Win),
      (w.hasParent = true ∨ bitsHigh w.style STY_TOPLEVEL = false) →
      setForegroundWindow l w = (l, false)) := by
  refine ⟨fun ops => (ContInv_foldl ops [] ⟨rfl, List.nodup_nil⟩).1,
    addChild_duplicate, fun l w h => ?_⟩
  have : (!w.hasParent && bitsHigh w.style STY_TOPLEVEL) = false := by
    rcases h with h | h <;> simp [h]
  simp [setForegroundWindow, this]

/-- C3 witness: the invariant evaluated on a concrete operation sequence,
and the two rejection rules applied at concrete inputs. -/
theorem claim3_witness :
    ((([ContainerOp.add { id := 1, style := 0 },
        ContainerOp.add { id := 2, style := 0 },
        ContainerOp.add { id := 2, style := 0 },
        ContainerOp.removeByID 1,
        ContainerOp.foreground { id := 2, style := 0 }].foldl
          applyContainerOp []).map Win.zOrder) =
      List.range ([ContainerOp.add { id := 1, style := 0 },
        ContainerOp.add { id := 2, style := 0 },
        ContainerOp.add { id := 2, style := 0 },
        ContainerOp.removeByID 1,
        ContainerOp.foreground { id := 2, style := 0 }].foldl
          applyContainerOp []).length) ∧
    addChild [{ id := 7, style := 0 }] { id := 7, style := 5 } =
      ([{ id := 7, style := 0 }], false) ∧
    setForegroundWindow [{ id := 7, style := 0 }] { id := 7, style := 0 } =
      ([{ id := 7, style := 0 }], false) :=
  ⟨claim3_zOrder_contiguous.1 _,
   claim3_zOrder_contiguous.2.1 _ _ ⟨{ id := 7, style := 0 }, by simp, by decide⟩,
   claim3_zOrder_contiguous.2.2 _ _ (Or.inr (by decide))⟩

mutual
/-- A window with its owned children (the parent/child tree rooted at one
window). The forest type makes all recursions structural. -/
inductive WTree where
  | node (w : Win) (kids : WForest)
/-- An ordered sequence of sibling subtrees (a child collection), in
z-order: later entries are higher (painted later). -/
inductive WForest where
  | nil
  | cons (t : WTree) (ts : WForest)
end

/-- The window at the root of a subtree. -/
def WTree.root : WTree → Win
  | .node w _ => w

/-- The child collection of the root window of a subtree. -/
def WTree.kids : WTree → WForest
  | .node _ k => k

/-- The ids of the root windows of a forest, in order. -/
def forestRootIDs : WForest → List (Fin 256)
  | .nil => []
  | .cons t ts => t.root.id :: forestRootIDs ts

mutual
/-- Embeds `Window::processInput` (exostra.h lines 2330-2360) with an
instrumentation counter: the result is the updated subtree, the claim
verdict (the C++ return value), and the number of windows in the subtree
on which `queueMessage` returned true during the call. `pd` is the
drawability of the parent chain (`true` at top level). -/
def processInput (disp : Rect) (pd : Bool) (ty px py : Nat) :
    WTree → WTree × Bool × Nat
  | .node w kids =>
    if !(isDrawable disp pd w) then (.node w kids, false, 0)
    else if !(w.rect.pointWithin (px : Int) (py : Int)) then
      (.node w kids, false, 0)
    else
      let r := processInputForest disp (isDrawable disp pd w) ty px py kids
      if r.2.1 then (.node w r.1, true, r.2.2)
      else
        let q := w.queueMessage .input (makeMsgParam 0 ty) (makeMsgParam px py)
        (.node q.1 r.1, q.2, r.2.2 + (if q.2 then 1 else 0))
/-- The `forEachChildReverse` walk inside `processInput`: children are
interrogated from the top of the z-order down (the tail of the sequence
first), stopping at the first child whose subtree claims the point. -/
def processInputForest (disp : Rect) (pd : Bool) (ty px py : Nat) :
    WForest → WForest × Bool × Nat
  | .nil => (.nil, false, 0)
  | .cons t ts =>
    let rs := processInputForest disp pd ty px py ts
    if rs.2.1 then (.cons t rs.1, true, rs.2.2)
    else
      let rt := processInput disp pd ty px py t
      (.cons rt.1 rs.1, rt.2.1, rs.2.2 + rt.2.2)
end

/-- Embeds the walk of `WindowManager::hitTest` (exostra.h lines
1714-1752) over the root registry: top-level windows are visited from the
top of the z-order down, non-drawable ones are skipped, and the walk stops
at the first window whose subtree claims the tap (INPUT_TAP). The
rate-limit and screensaver early returns perform no deliveries and are
omitted. -/
def hitTest (disp : Rect) (px py : Nat) : WForest → WForest × Bool × Nat
  | .nil => (.nil, false, 0)
  | .cons t ts =>
    let rs := hitTest disp px py ts
    if rs.2.1 then (.cons t rs.1, true, rs.2.2)
    else if !(isDrawable disp true t.root) then (.cons t rs.1, false, rs.2.2)
    else
      let rt := processInput disp true INPUT_TAP px py t
      (.cons rt.1 rs.1, rt.2.1, rs.2.2 + rt.2.2)

mutual
theorem processInput_count (disp : Rect) (pd : Bool) (ty px py : Nat)
    (t : WTree) :
    (processInput disp pd ty px py t).2.2 =
      (if (processInput disp pd ty px py t).2.1 then 1 else 0) := by
  match t with
  | .node w kids =>
    simp only [processInput]
    split_ifs with h1 h2 h3 h4 h5 <;>
      simp_all [processInputForest_count disp true ty px py kids]
theorem processInputForest_count (disp : Rect) (pd : Bool) (ty px py : Nat)
    (ts : WForest) :
    (processInputForest disp pd ty px py ts).2.2 =
      (if (processInputForest disp pd ty px py ts).2.1 then 1 else 0) := by
  match ts with
  | .nil => rfl
  | .cons t ts' =>
    simp only [processInputForest]
    split_ifs with h1 h2 <;>
      simp_all [processInput_count disp pd ty px py t,
        processInputForest_count disp pd ty px py ts']
end

theorem hitTest_count (disp : Rect) (px py : Nat) (f : WForest) :
    (hitTest disp px py f).2.2 = (if (hitTest disp px py f).2.1 then 1 else 0) := by
  match f with
  | .nil => rfl
  | .cons t ts =>
    have ih := hitTest_count disp px py ts
    simp only [hitTest]
    split_ifs with h1 h2 h3 <;>
      simp_all [processInput_count disp true INPUT_TAP px py t]

/-- C4. One call to the hit-test walk enqueues a successful INPUT delivery
(MSG_INPUT queued with a true claim result) on at most one window in the
entire tree: zero when no window claims the tap, one when some window
does. -/
theorem claim4_at_most_one_hit (disp : Rect) (px py : Nat) (f : WForest) :
    (hitTest disp px py f).2.2 ≤ 1 := by
  rw [hitTest_count]
  split_ifs <;> omega

/-- Embeds `Window::hide` (exostra.h lines 2396-2406) restricted to the
fields of the window itself: a non-visible window is returned unchanged
(the C++ returns false); otherwise the visible style bit is cleared via
`setStyle`, whose change-detection calls `setDirty(true)` — setting the
dirty state bit; the triggered `redraw()` returns immediately because the
window is no longer drawable. The final `wm->setDirtyRect(getRect())`
only intersects the vacated rect into OTHER drawable top-level windows
dirty rects (`markRectDirty`); it touches no style or state flag of any
window, so it does not affect the properties stated here. -/
def hideW (w : Win) : Win :=
  if !(isVisible w) then w
  else { w with style := w.style &&& (65535 - STY_VISIBLE),
                state := w.state ||| STA_DIRTY }

/-- `hide()` called on the root window of a subtree: only the root's own
flags change; the children are untouched. -/
def hideTree : WTree → WTree
  | .node w kids => .node (hideW w) kids

mutual
/-- The drawability of every window of a subtree (preorder), each computed
as `Window::isDrawable` does: through the chain of ancestors starting from
`pd`. -/
def drawableFlags (disp : Rect) (pd : Bool) : WTree → List Bool
  | .node w kids =>
    isDrawable disp pd w :: drawableFlagsForest disp (isDrawable disp pd w) kids
/-- Drawability flags of all windows of a forest of sibling subtrees. -/
def drawableFlagsForest (disp : Rect) (pd : Bool) : WForest → List Bool
  | .nil => []
  | .cons t ts => drawableFlags disp pd t ++ drawableFlagsForest disp pd ts
end

theorem isVisible_hideW (w : Win) : isVisible (hideW w) = false := by
  by_cases h : isVisible w
  · simp only [hideW, h, Bool.not_true, Bool.false_eq_true, if_false]
    have hmask : (65535 - STY_VISIBLE) &&& STY_VISIBLE = 0 := by decide
    simp [isVisible, bitsHigh, Nat.and_assoc, hmask, STY_VISIBLE]
  · have hf : isVisible w = false := by simpa using h
    simp [hideW, hf]

theorem isDrawable_not_visible (disp : Rect) (pd : Bool) (w : Win)
    (h : isVisible w = false) : isDrawable disp pd w = false := by
  simp [isDrawable, h]

mutual
theorem drawableFlags_false (disp : Rect) (t : WTree) :
    ∀ b ∈ drawableFlags disp false t, b = false := by
  match t with
  | .node w kids =>
    intro b hb
    have hroot : isDrawable disp false w = false := by simp [isDrawable]
    rw [drawableFlags, hroot] at hb
    rcases List.mem_cons.mp hb with h | h
    · exact h
    · exact drawableFlagsForest_false disp kids b h
theorem drawableFlagsForest_false (disp : Rect) (ts : WForest) :
    ∀ b ∈ drawableFlagsForest disp false ts, b = false := by
  match ts with
  | .nil => intro b hb; simp [drawableFlagsForest] at hb
  | .cons t ts' =>
    intro b hb
    rw [drawableFlagsForest] at hb
    rcases List.mem_append.mp hb with h | h
    · exact drawableFlags_false disp t b h
    · exact drawableFlagsForest_false disp ts' b h
end

/-- C5. (i) A window whose parent chain is not drawable is never drawable;
(ii) a window is drawable exactly when it is visible, alive, its parent
chain is drawable, and its rect is not wholly outside the display; (iii)
hiding the root of a subtree makes every window of the subtree
non-drawable while the children (including their own STY_VISIBLE flags)
are left untouched. -/
theorem claim5_drawable_invariant (disp : Rect) :
    (∀ w : Win, isDrawable disp false w = false) ∧
    (∀ (pd : Bool) (w : Win), isDrawable disp pd w = true ↔
      (isVisible w = true ∧ isAlive w = true ∧ pd = true ∧
       w.rect.outsideRect disp = false)) ∧
    (∀ (pd : Bool) (t : WTree),
      (∀ b ∈ drawableFlags disp pd (hideTree t), b = false) ∧
      (hideTree t).kids = t.kids) := by
  refine ⟨fun w => by simp [isDrawable], fun pd w => ?_, fun pd t => ⟨?_, ?_⟩⟩
  · constructor
    · intro h
      simp only [isDrawable, Bool.and_eq_true, Bool.not_eq_true'] at h
      exact ⟨h.1.1.1, h.1.1.2, h.1.2, h.2⟩
    · intro ⟨h1, h2, h3, h4⟩
      simp [isDrawable, h1, h2, h3, h4]
  · intro b hb
    cases t with
    | node w kids =>
      have hroot : isDrawable disp pd (hideW w) = false :=
        isDrawable_not_visible disp pd (hideW w) (isVisible_hideW w)
      rw [hideTree, drawableFlags, hroot] at hb
      rcases List.mem_cons.mp hb with h | h
      · exact h
      · exact drawableFlagsForest_false disp kids b h
  · cases t with
    | node w kids => rfl

/-- A concrete display rect used by witnesses. -/
def dispEx : Rect := ⟨0, 0, 320, 240⟩

/-- A concrete visible, alive window used by witnesses. -/
def winEx1 : Win := { id := 1, style := STY_VISIBLE, state := STA_ALIVE, rect := ⟨0, 0, 10, 10⟩ }

/-- A concrete visible, alive parent window used by witnesses. -/
def winEx2 : Win := { id := 2, style := STY_VISIBLE, state := STA_ALIVE, rect := ⟨0, 0, 20, 20⟩ }

/-- A concrete two-window tree (visible child under a visible parent). -/
def treeEx : WTree := .node winEx2 (.cons (.node winEx1 .nil) .nil)

/-- C5 witness: the three parts applied at concrete inputs: a window that
is itself visible and alive under a dead parent chain, the drawability
decomposition of that window, and hiding a concrete parent of one visible
child. -/
theorem claim5_witness :
    (isDrawable dispEx false winEx1 = false) ∧
    (isDrawable dispEx true winEx1 = true ↔
      (isVisible winEx1 = true ∧ isAlive winEx1 = true ∧ true = true ∧
       winEx1.rect.outsideRect dispEx = false)) ∧
    isDrawable dispEx true (hideW winEx2) = false ∧
    isDrawable dispEx (isDrawable dispEx true (hideW winEx2)) winEx1 = false :=
  ⟨(claim5_drawable_invariant dispEx).1 winEx1,
   (claim5_drawable_invariant dispEx).2.1 true winEx1,
   ((claim5_drawable_invariant dispEx).2.2 true treeEx).1 _ (by decide),
   ((claim5_drawable_invariant dispEx).2.2 true treeEx).1 _ (by decide)⟩

mutual
/-- Embeds `Window::processQueue` (exostra.h lines 2312-2328): pop at most
one message from the local FIFO and route it, recurse into every child,
and return whether the LOCAL queue is still nonempty. Routing the popped
message is elided for the queue accounting: no base-class message handler
reachable from `routeMessage` ever calls `queueMessage`, so routing
cannot change any queue in the tree (it only mutates state flags, dirty
rects and the display). -/
def processQueue : WTree → WTree × Bool
  | .node w kids =>
    let w1 := match w.queue with
      | [] => w
      | _ :: rest => { w with queue := rest }
    (.node w1 (processQueueForest kids), !w1.queue.isEmpty)
/-- The `forEachChild` recursion inside `processQueue`: every child is
processed; the callback always returns true so there is no early abort,
and the children's return values are discarded. -/
def processQueueForest : WForest → WForest
  | .nil => .nil
  | .cons t ts => .cons (processQueue t).1 (processQueueForest ts)
end

mutual
/-- Every message queue of a subtree, in preorder. -/
def queuesOf : WTree → List (List PackagedMessage)
  | .node w kids => w.queue :: queuesOfForest kids
/-- Every message queue of a forest, in preorder. -/
def queuesOfForest : WForest → List (List PackagedMessage)
  | .nil => []
  | .cons t ts => queuesOf t ++ queuesOfForest ts
end

mutual
theorem processQueue_queuesOf (t : WTree) :
    queuesOf (processQueue t).1 = (queuesOf t).map List.tail := by
  match t with
  | .node w kids =>
    have ih := processQueueForest_queuesOf kids
    cases hq : w.queue with
    | nil => simp [processQueue, queuesOf, hq, ih]
    | cons m rest => simp [processQueue, queuesOf, hq, ih]
theorem processQueueForest_queuesOf (ts : WForest) :
    queuesOfForest (processQueueForest ts) = (queuesOfForest ts).map List.tail := by
  match ts with
  | .nil => rfl
  | .cons t ts' =>
    simp [processQueueForest, queuesOfForest, processQueue_queuesOf t,
      processQueueForest_queuesOf ts']
end

theorem processQueue_root_queue (t : WTree) :
    (processQueue t).1.root.queue = t.root.queue.tail := by
  cases t with
  | node w kids => cases hq : w.queue <;> simp [processQueue, WTree.root, hq]

theorem processQueue_ret (t : WTree) :
    (processQueue t).2 = !t.root.queue.tail.isEmpty := by
  cases t with
  | node w kids => cases hq : w.queue <;> simp [processQueue, WTree.root, hq]

/-- Embeds the driver loop `while (win->processQueue()) { }` from
`WindowManager::render` (exostra.h line 1879): keep calling
`processQueue` until it reports an empty (local) queue. -/
def drainLoop (t : WTree) : WTree :=
  let r := processQueue t
  if h : r.2 then drainLoop r.1 else r.1
termination_by t.root.queue.length
decreasing_by
  rw [processQueue_root_queue]
  rw [processQueue_ret] at h
  cases hq : t.root.queue with
  | nil => rw [hq] at h; simp at h
  | cons m rest => simp

theorem drainLoop_root_drained (t : WTree) : (drainLoop t).root.queue = [] := by
  rw [drainLoop]
  by_cases h : (processQueue t).2 = true
  · simp only [h, dite_true]
    exact drainLoop_root_drained (processQueue t).1
  · have hf : (processQueue t).2 = false := by simpa using h
    simp only [hf, Bool.false_eq_true, dite_false]
    rw [processQueue_root_queue]
    rw [processQueue_ret] at hf
    simpa using hf
termination_by t.root.queue.length
decreasing_by
  rw [processQueue_root_queue]
  rw [processQueue_ret] at h
  cases hq : t.root.queue with
  | nil => rw [hq] at h; simp at h
  | cons m rest => simp

/-- C6 (amended). Each `processQueue` call dequeues at most one message
from the local FIFO and recurses into all children — in one call every
queue in the subtree loses exactly its head; the return value reflects
only the local queue (it is true exactly when the local queue is still
nonempty after the pop); looping until it returns false therefore drains
the window's OWN queue, but descendant queues may retain messages. -/
theorem claim6_processQueue_drain (t : WTree) :
    (queuesOf (processQueue t).1 = (queuesOf t).map List.tail) ∧
    ((processQueue t).2 = !t.root.queue.tail.isEmpty) ∧
    ((drainLoop t).root.queue = []) :=
  ⟨processQueue_queuesOf t, processQueue_ret t, drainLoop_root_drained t⟩

/-- A concrete tree for the C6 counterexample: the root queue is empty and
its only child holds two pending messages. -/
def treeC6 : WTree :=
  .node { id := 1 }
    (.cons (.node { id := 2, queue := [⟨Msg.event, 0, 0⟩, ⟨Msg.event, 1, 1⟩] } .nil) .nil)

/-- C6 counterexample to the claim as stated: on this tree the very first
`processQueue` call returns false (the LOCAL queue is empty), so the
repeat-until-false loop stops, yet the child still holds one message —
the subtree is not fully drained. -/
theorem claim6_counterexample :
    (processQueue treeC6).2 = false ∧
    queuesOf (processQueue treeC6).1 = [[], [⟨Msg.event, 1, 1⟩]] ∧
    queuesOf (drainLoop treeC6) = [[], [⟨Msg.event, 1, 1⟩]] := by
  refine ⟨rfl, rfl, ?_⟩
  rw [drainLoop]
  rfl

mutual
/-- Embeds `Window::destroy` (exostra.h lines 2463-2474): hide the window,
deliver MSG_DESTROY synchronously (`routeMessage` runs the base
`onDestroy`, which returns true, and clears the alive state bit
unconditionally), destroy every child recursively (accumulating the
verdicts with `&=`), then clear the own child collection
(`removeAllChildren`). Nothing here removes the window from the
collection of its parent or of the root registry. -/
def destroy : WTree → WTree × Bool
  | .node w kids =>
    let w1 := hideW w
    let w2 := { w1 with state := w1.state &&& (65535 - STA_ALIVE) }
    (.node w2 .nil, destroyForest kids)
/-- The `forEachChild` recursion inside `destroy`: `destroyed &=
child->destroy()` over all children (no early abort; `&=` does not
short-circuit). -/
def destroyForest : WForest → Bool
  | .nil => true
  | .cons t ts => (destroy t).2 && destroyForest ts
end

/-- Calling `destroy()` on the child with the given id while it sits in a
parent container: the child subtree is destroyed in place; the parent's
child collection keeps its entry (the C++ deque still holds the
shared_ptr — only the child's own state changed). -/
def destroyChildInForest : WForest → Fin 256 → WForest
  | .nil, _ => .nil
  | .cons k ks, cid =>
    .cons (if k.root.id = cid then (destroy k).1 else k)
      (destroyChildInForest ks cid)

/-- `child->destroy()` for the child of `t` with the given id. -/
def destroyChildByID (t : WTree) (cid : Fin 256) : WTree :=
  .node t.root (destroyChildInForest t.kids cid)

theorem bitsHigh_cleared_bit (s : Nat) : bitsHigh (s &&& 65534) 1 = false := by
  have hmask : (65534 : Nat) &&& 1 = 0 := by decide
  simp [bitsHigh, Nat.and_assoc, hmask]

/-- C9 (amended). `destroy` hides the window (it is not visible
afterwards), delivers MSG_DESTROY which clears the alive state, destroys
all children recursively, and detaches all CHILDREN from the window (its
own child collection is emptied); it does NOT remove the window itself
from its parent's or the root's collection — that is the caller's duty. -/
theorem claim9_destroy_sequence (t : WTree) :
    (destroy t).1.kids = WForest.nil ∧
    isVisible (destroy t).1.root = false ∧
    isAlive (destroy t).1.root = false := by
  cases t with
  | node w kids =>
    refine ⟨rfl, ?_, ?_⟩
    · have h := isVisible_hideW w
      simpa [destroy, WTree.root, isVisible] using
        (by simpa [isVisible] using h : _)
    · simp only [destroy, WTree.root]
      exact bitsHigh_cleared_bit (hideW w).state

/-- A visible, alive window with id 2, used by the C9 counterexample. -/
def winC9 : Win := { id := 2, style := STY_VISIBLE, state := STA_ALIVE, rect := ⟨0, 0, 10, 10⟩ }

/-- The parent/child pair used by the C9 counterexample: a visible, alive
child (id 2) inside a parent (id 1). -/
def treeC9 : WTree := .node { id := 1 } (.cons (.node winC9 .nil) .nil)

/-- C9 counterexample to the claim as stated: destroying the child with
id 2 leaves the parent's child list still containing an entry with id 2
(destroy never detaches the window from its containing collection), even
though the child itself is now dead and hidden. -/
theorem claim9_counterexample :
    forestRootIDs (destroyChildByID treeC9 2).kids = [2] ∧
    (match (destroyChildByID treeC9 2).kids with
     | .nil => false
     | .cons k _ => !(isAlive k.root) && !(isVisible k.root)) = true := by
  decide

/-- The obscuring-rect accumulation of `WindowManager::render` (exostra.h
lines 1887-1905): fold over the drawable windows above the current one
(visited top-down); the first drawable one seeds the rect, later ones are
merged in. `none` models the `obscuringRectSet == false` state. -/
def obscuringAccum (disp : Rect) (l : List Win) : Option Rect :=
  l.foldl (fun acc other =>
    if isDrawable disp true other then
      match acc with
      | none => some other.rect
      | some o => some (o.mergeRect other.rect)
    else acc) none

/-- The obscuring rect for the window at index `i` of the registry list
`ws` (bottom-to-top order): the reverse walk visits exactly the windows
after index `i`, topmost first, and stops at the window itself. An unset
accumulator yields the default `Rect()`. -/
def obscuringRect (disp : Rect) (ws : List Win) (i : Nat) : Rect :=
  (obscuringAccum disp ((ws.drop (i + 1)).reverse)).getD {}

/-- Embeds the Point overload of `WindowManager::displayToWindow`
(exostra.h lines 1794-1803): validate that the point lies within the
window rect, then translate it into window-local coordinates; fails
closed (returns none) on an out-of-bounds point. -/
def displayToWindowPoint (windowRect : Rect) (x y : Int) : Option (Int × Int) :=
  if windowRect.pointWithin x y then
    some (x - windowRect.left, y - windowRect.top)
  else none

/-- Embeds the Rect overload of `WindowManager::displayToWindow`
(exostra.h lines 1817-1829): convert the top-left and bottom-right
corners; fail when either conversion fails. -/
def displayToWindowRect (windowRect : Rect) (r : Rect) : Option Rect :=
  match displayToWindowPoint windowRect r.left r.top,
        displayToWindowPoint windowRect r.right r.bottom with
  | some tl, some br => some ⟨tl.1, tl.2, br.1, br.2⟩
  | _, _ => none

/-- Embeds the fragment blit loop of the render body (exostra.h lines
1919-1950): fragments are popped in order; each is converted to
window-local coordinates by `displayToWindow` and then blitted. A failed
conversion makes the lambda return immediately (release semantics of the
`EWM_ASSERT`): the failing fragment and all remaining ones are NOT
blitted and the loop does not run to completion. Returns the fragments
actually blitted and whether the loop completed. -/
def blitLoop (windowRect : Rect) : List Rect → List Rect × Bool
  | [] => ([], true)
  | f :: fs =>
    match displayToWindowRect windowRect f with
    | some _ =>
      let r := blitLoop windowRect fs
      (f :: r.1, r.2)
    | none => ([], false)

/-- Embeds the per-window body of the compositor loop of
`WindowManager::render` (exostra.h lines 1877-1955), evaluated at the
state the window list has when the loop reaches index `i` (the per-window
`processQueue` drain precedes this decision and does not touch rects).
Result: the list of sub-rectangles blitted to the display for this window
(pixel writes attributable to it), and its dirty rect after the body ran.
Non-drawable windows and windows with an empty dirty rect are skipped
unchanged; with a nonempty obscuring rect the dirty rect is decomposed by
`subtractRect`, and an empty decomposition clears the dirty rect
(`markRectDirty(Rect())`) with no painting; otherwise the fragments (the
whole dirty rect when nothing obscures) run through the blit loop: only
if it completes is the dirty rect cleared — a `displayToWindow` failure
leaves the stored dirty rect untouched. -/
def renderWindow (disp : Rect) (ws : List Win) (i : Nat) : List Rect × Rect :=
  match ws.get? i with
  | none => ([], {})
  | some w =>
    if !(isDrawable disp true w) then ([], w.dirtyRect)
    else if w.dirtyRect.empty then ([], w.dirtyRect)
    else
      let obscuring := obscuringRect disp ws i
      if !obscuring.empty then
        let dirtyRects := w.dirtyRect.subtractRect obscuring
        if dirtyRects.isEmpty then ([], Rect.mk 0 0 0 0)
        else
          let b := blitLoop w.rect dirtyRects
          if b.2 then (b.1, Rect.mk 0 0 0 0) else (b.1, w.dirtyRect)
      else
        let b := blitLoop w.rect [w.dirtyRect]
        if b.2 then (b.1, Rect.mk 0 0 0 0) else (b.1, w.dirtyRect)

/-- Helper: whatever rect the accumulator holds only grows (edgewise)
along the fold, and any drawable member's rect ends up contained in the
final accumulator. -/
theorem obscuringAccum_contains (disp : Rect) (l : List Win) (v : Win)
    (hv : v ∈ l) (hd : isDrawable disp true v = true) :
    ∃ o : Rect, obscuringAccum disp l = some o ∧
      o.left ≤ v.rect.left ∧ o.top ≤ v.rect.top ∧
      v.rect.right ≤ o.right ∧ v.rect.bottom ≤ o.bottom := by
  have step : ∀ (l' : List Win) (a : Rect),
      ∃ o : Rect, (List.foldl (fun acc other =>
        if isDrawable disp true other then
          match acc with
          | none => some other.rect
          | some o => some (o.mergeRect other.rect)
        else acc) (some a) l') = some o ∧
        o.left ≤ a.left ∧ o.top ≤ a.top ∧ a.right ≤ o.right ∧ a.bottom ≤ o.bottom := by
    intro l'
    induction l' with
    | nil => intro a; exact ⟨a, rfl, le_refl _, le_refl _, le_refl _, le_refl _⟩
    | cons x xs ih =>
      intro a
      by_cases hx : isDrawable disp true x = true
      · simp only [List.foldl_cons, hx, if_true]
        obtain ⟨o, ho, h1, h2, h3, h4⟩ := ih (a.mergeRect x.rect)
        refine ⟨o, ho, ?_, ?_, ?_, ?_⟩ <;>
          simp only [Rect.mergeRect] at h1 h2 h3 h4 <;> omega
      · have hxf : isDrawable disp true x = false := by simpa using hx
        simp only [List.foldl_cons, hxf, Bool.false_eq_true, if_false]
        exact ih a
  induction l with
  | nil => simp at hv
  | cons x xs ih =>
    rcases List.mem_cons.mp hv with hvx | hvxs
    · subst hvx
      simp only [obscuringAccum, List.foldl_cons, hd, if_true]
      exact step xs v.rect
    · by_cases hx : isDrawable disp true x = true
      · simp only [obscuringAccum, List.foldl_cons, hx, if_true]
        obtain ⟨o, ho, h1, h2, h3, h4⟩ := ih hvxs
        simp only [obscuringAccum] at ho
        -- restart the fold from `some x.rect`; the accumulator only grows,
        -- and v's rect is merged somewhere along the way
        clear ho
        have grow : ∀ (l' : List Win) (a : Rect), v ∈ l' →
            ∃ o : Rect, (List.foldl (fun acc other =>
              if isDrawable disp true other then
                match acc with
                | none => some other.rect
                | some o => some (o.mergeRect other.rect)
              else acc) (some a) l') = some o ∧
              o.left ≤ v.rect.left ∧ o.top ≤ v.rect.top ∧
              v.rect.right ≤ o.right ∧ v.rect.bottom ≤ o.bottom := by
          intro l'
          induction l' with
          | nil => intro a hmem; simp at hmem
          | cons y ys ihy =>
            intro a hmem
            rcases List.mem_cons.mp hmem with hvy | hvys
            · subst hvy
              simp only [List.foldl_cons, hd, if_true]
              obtain ⟨o, ho, h1, h2, h3, h4⟩ := step ys (a.mergeRect v.rect)
              refine ⟨o, ho, ?_, ?_, ?_, ?_⟩ <;>
                simp only [Rect.mergeRect] at h1 h2 h3 h4 <;> omega
            · by_cases hy : isDrawable disp true y = true
              · simp only [List.foldl_cons, hy, if_true]
                exact ihy (a.mergeRect y.rect) hvys
              · have hyf : isDrawable disp true y = false := by simpa using hy
                simp only [List.foldl_cons, hyf, Bool.false_eq_true, if_false]
                exact ihy a hvys
        exact grow xs x.rect hvxs
      · have hxf : isDrawable disp true x = false := by simpa using hx
        simp only [obscuringAccum, List.foldl_cons, hxf, Bool.false_eq_true, if_false]
        simpa [obscuringAccum] using ih hvxs

/-- C2 (amended). If window W (drawable, with a well-formed dirty rect
contained in its window rect) is fully covered by the rect of a drawable
window V above it in z-order, the compositor body for W blits nothing
(zero pixel writes attributable to W) and leaves W's dirty rect empty.
The drawability of W and the dirty-rect containment are necessary
hypotheses: without them the pass still writes no pixels for W in the
counterexample scenarios, but it leaves W's dirty rect uncleared. -/
theorem claim2_occlusion_culling (disp : Rect) (ws : List Win) (i j : Nat)
    (W V : Win)
    (hW : ws[i]? = some W)
    (hV : ws[j]? = some V)
    (hij : i < j)
    (hWd : isDrawable disp true W = true)
    (hVd : isDrawable disp true V = true)
    (hcover : W.rect.withinRect V.rect = true)
    (hdwf : W.dirtyRect.wf)
    (hdin : W.rect.left ≤ W.dirtyRect.left ∧ W.rect.top ≤ W.dirtyRect.top ∧
            W.dirtyRect.right ≤ W.rect.right ∧
            W.dirtyRect.bottom ≤ W.rect.bottom) :
    (renderWindow disp ws i).1 = [] ∧ (renderWindow disp ws i).2.empty = true := by
  by_cases hde : W.dirtyRect.empty = true
  · simp [renderWindow, hW, hWd, hde]
  · have hdefB : W.dirtyRect.empty = false := by simpa using hde
    have hmem : V ∈ ws.drop (i + 1) := by
      have hg : (ws.drop (i + 1))[j - (i + 1)]? = some V := by
        rw [List.getElem?_drop]
        have heq : i + 1 + (j - (i + 1)) = j := by omega
        rw [heq, hV]
      exact List.getElem?_mem hg
    have hmemrev : V ∈ (ws.drop (i + 1)).reverse := List.mem_reverse.mpr hmem
    obtain ⟨o, ho, h1, h2, h3, h4⟩ :=
      obscuringAccum_contains disp ((ws.drop (i + 1)).reverse) V hmemrev hVd
    have hobs : obscuringRect disp ws i = o := by
      rw [obscuringRect, ho]
      rfl
    simp only [Rect.withinRect, Rect.pointWithin, Bool.and_eq_true,
      decide_eq_true_eq] at hcover
    obtain ⟨hdwf1, hdwf2⟩ := hdwf
    have hdef := hdefB
    simp only [Rect.empty, Rect.width, Rect.height, Bool.or_eq_false_iff,
      beq_eq_false_iff_ne, ne_eq] at hdef
    have hcont : o.left ≤ W.dirtyRect.left ∧ o.top ≤ W.dirtyRect.top ∧
        W.dirtyRect.right ≤ o.right ∧ W.dirtyRect.bottom ≤ o.bottom := by
      refine ⟨?_, ?_, ?_, ?_⟩ <;> omega
    have hoempty : o.empty = false := by
      simp only [Rect.empty, Rect.width, Rect.height, Bool.or_eq_false_iff,
        beq_eq_false_iff_ne, ne_eq]
      constructor <;> omega
    have hnil : W.dirtyRect.subtractRect o = [] :=
      subtractRect_nil_of_contained W.dirtyRect o hcont.1 hcont.2.1
        hcont.2.2.1 hcont.2.2.2
    have hzero : (Rect.mk 0 0 0 0).empty = true := rfl
    simp [renderWindow, hW, hWd, hdefB, hobs, hoempty, hnil, hzero]

/-- Scenario 1 of the C2 counterexample: W is fully covered but hidden
(STY_VISIBLE clear) with a stale nonempty dirty rect. -/
def winC2W : Win := { id := 1, state := STA_ALIVE, rect := ⟨0, 0, 10, 10⟩, dirtyRect := ⟨0, 0, 10, 10⟩ }

/-- The covering drawable window above W in scenario 1. -/
def winC2V : Win := { id := 2, style := STY_VISIBLE, state := STA_ALIVE, rect := ⟨0, 0, 20, 20⟩ }

/-- Scenario 2 of the C2 counterexample: W is drawable and its RECT is
fully covered, but its stale dirty rect extends beyond the rect. -/
def winC2W2 : Win := { id := 3, style := STY_VISIBLE, state := STA_ALIVE, rect := ⟨0, 0, 10, 10⟩, dirtyRect := ⟨0, 0, 100, 100⟩ }

/-- The covering drawable window above W in scenario 2. -/
def winC2V2 : Win := { id := 4, style := STY_VISIBLE, state := STA_ALIVE, rect := ⟨0, 0, 50, 50⟩ }

/-- C2 counterexample to the claim as stated: (i) for a non-drawable W
fully covered by drawable V above it, the render body writes no pixels
but does NOT clear W's dirty rect; (ii) for a drawable W whose stale
dirty rect sticks out of its (fully covered) window rect, the
subtraction leaves fragments, the first fragment fails the
display-to-window conversion, the blit loop aborts with zero writes, and
the dirty rect is again NOT cleared — in both scenarios the claim's
clears-the-dirty-rect conjunct fails. -/
theorem claim2_counterexample :
    (isDrawable dispEx true winC2V = true ∧
     Rect.withinRect winC2W.rect winC2V.rect = true ∧
     (renderWindow dispEx [winC2W, winC2V] 0).1 = [] ∧
     (renderWindow dispEx [winC2W, winC2V] 0).2.empty = false) ∧
    (isDrawable dispEx true winC2W2 = true ∧
     isDrawable dispEx true winC2V2 = true ∧
     Rect.withinRect winC2W2.rect winC2V2.rect = true ∧
     Rect.subtractRect winC2W2.dirtyRect winC2V2.rect ≠ [] ∧
     displayToWindowRect winC2W2.rect ⟨50, 0, 100, 100⟩ = none ∧
     (renderWindow dispEx [winC2W2, winC2V2] 0).1 = [] ∧
     (renderWindow dispEx [winC2W2, winC2V2] 0).2.empty = false) := by
  decide

/-- A drawable window with a nonempty dirty rect inside its rect, used by
the C2 witness. -/
def winC2g : Win := { id := 1, style := STY_VISIBLE, state := STA_ALIVE, rect := ⟨0, 0, 10, 10⟩, dirtyRect := ⟨2, 2, 8, 8⟩ }

/-- C2 witness: the amended occlusion-culling theorem applied to a
concrete pair (drawable dirty W below a covering drawable V). -/
theorem claim2_witness :
    (renderWindow dispEx [winC2g, winEx2] 0).1 = [] ∧
    (renderWindow dispEx [winC2g, winEx2] 0).2.empty = true :=
  claim2_occlusion_culling dispEx [winC2g, winEx2] 0 1 winC2g winEx2
    rfl rfl (by decide) (by decide) (by decide) (by decide) (by decide)
    ⟨by decide, by decide, by decide, by decide⟩

/-- Embeds `Window::markRectDirty` (exostra.h lines 2143-2169), the
dirty-rect edge accumulation: for a nonempty argument each of the four
edges is updated independently (left/top move only left/up, with a stored
value of zero treated as unset; right/bottom move only right/down),
clamped to the window rect. An empty argument resets the dirty rect to
the default `Rect()`; the accompanying recursive reset of the children's
dirty rects touches only child windows and is modelled at the tree level
where needed. -/
def markRectDirty (windowRect dirtyRect rect : Rect) : Rect :=
  if !rect.empty then
    let l := if rect.left ≥ windowRect.left ∧
        (rect.left < dirtyRect.left ∨ dirtyRect.left = 0)
      then rect.left else dirtyRect.left
    let t := if rect.top ≥ windowRect.top ∧
        (rect.top < dirtyRect.top ∨ dirtyRect.top = 0)
      then rect.top else dirtyRect.top
    let ri := if rect.right ≤ windowRect.right ∧ rect.right > dirtyRect.right
      then rect.right else dirtyRect.right
    let b := if rect.bottom ≤ windowRect.bottom ∧ rect.bottom > dirtyRect.bottom
      then rect.bottom else dirtyRect.bottom
    Rect.mk l t ri b
  else Rect.mk 0 0 0 0

/-- C8. For a nonempty rect lying within the window rect, and a dirty
rect whose four edges are all nonzero, `markRectDirty` moves each edge
independently only toward the worst case (left/top never move right/down,
right/bottom never move left/up), and consequently the new dirty rect
contains every point of the old one. -/
theorem claim8_markRectDirty_grows (windowRect dirtyRect rect : Rect)
    (hne : rect.empty = false)
    (hin : rect.withinRect windowRect = true)
    (hl : dirtyRect.left ≠ 0) (ht : dirtyRect.top ≠ 0)
    (hr : dirtyRect.right ≠ 0) (hb : dirtyRect.bottom ≠ 0) :
    ((markRectDirty windowRect dirtyRect rect).left ≤ dirtyRect.left ∧
     (markRectDirty windowRect dirtyRect rect).top ≤ dirtyRect.top ∧
     dirtyRect.right ≤ (markRectDirty windowRect dirtyRect rect).right ∧
     dirtyRect.bottom ≤ (markRectDirty windowRect dirtyRect rect).bottom) ∧
    (∀ x y : Int, dirtyRect.pointWithin x y = true →
      (markRectDirty windowRect dirtyRect rect).pointWithin x y = true) := by
  have hmark : markRectDirty windowRect dirtyRect rect =
      Rect.mk
        (if rect.left ≥ windowRect.left ∧
            (rect.left < dirtyRect.left ∨ dirtyRect.left = 0)
          then rect.left else dirtyRect.left)
        (if rect.top ≥ windowRect.top ∧
            (rect.top < dirtyRect.top ∨ dirtyRect.top = 0)
          then rect.top else dirtyRect.top)
        (if rect.right ≤ windowRect.right ∧ rect.right > dirtyRect.right
          then rect.right else dirtyRect.right)
        (if rect.bottom ≤ windowRect.bottom ∧ rect.bottom > dirtyRect.bottom
          then rect.bottom else dirtyRect.bottom) := by
    simp [markRectDirty, hne]
  rw [hmark]
  simp only [Rect.pointWithin, Bool.and_eq_true, decide_eq_true_eq]
  refine ⟨⟨?_, ?_, ?_, ?_⟩, ?_⟩
  · split_ifs with h <;> omega
  · split_ifs with h <;> omega
  · split_ifs with h <;> omega
  · split_ifs with h <;> omega
  · intro x y hxy
    obtain ⟨⟨⟨hx1, hx2⟩, hy1⟩, hy2⟩ := hxy
    refine ⟨⟨⟨?_, ?_⟩, ?_⟩, ?_⟩ <;> split_ifs with h <;> omega

/-- C8 witness: the growth property applied to a concrete window rect,
dirty rect and marked rect. -/
theorem claim8_witness :
    ((markRectDirty ⟨1, 1, 100, 100⟩ ⟨10, 10, 20, 20⟩ ⟨5, 5, 30, 30⟩).left ≤ 10 ∧
     (markRectDirty ⟨1, 1, 100, 100⟩ ⟨10, 10, 20, 20⟩ ⟨5, 5, 30, 30⟩).top ≤ 10 ∧
     (20 : Int) ≤ (markRectDirty ⟨1, 1, 100, 100⟩ ⟨10, 10, 20, 20⟩ ⟨5, 5, 30, 30⟩).right ∧
     (20 : Int) ≤ (markRectDirty ⟨1, 1, 100, 100⟩ ⟨10, 10, 20, 20⟩ ⟨5, 5, 30, 30⟩).bottom) ∧
    (markRectDirty ⟨1, 1, 100, 100⟩ ⟨10, 10, 20, 20⟩ ⟨5, 5, 30, 30⟩).pointWithin 15 15 = true :=
  ⟨(claim8_markRectDirty_grows ⟨1, 1, 100, 100⟩ ⟨10, 10, 20, 20⟩ ⟨5, 5, 30, 30⟩
      (by decide) (by decide) (by decide) (by decide) (by decide) (by decide)).1,
   (claim8_markRectDirty_grows ⟨1, 1, 100, 100⟩ ⟨10, 10, 20, 20⟩ ⟨5, 5, 30, 30⟩
      (by decide) (by decide) (by decide) (by decide) (by decide) (by decide)).2
     15 15 (by decide)⟩

end Exostra
